import Mathlib

/-!
# Shader Advent 2024, day 19: the WGL host program

A shallow embedding of `src/day-19/wgl-app/wgl/wgl.cpp`:

* the window procedure `WndProc` and the two globals `xres`, `yres` it writes;
* the frame loop of `main` (message drain, uniform upload, draw, present);
* the elapsed-time computation `(now - before) / 1000.0f` in binary32 arithmetic;
* the centred start position handed to `CreateWindowExA`;
* the GLSL function `mainImage` of the embedded fragment shader.

Machine integers are `Nat`/`Int` with explicit reductions where the source
truncates. Single-precision values are rationals passed through an explicit
round-to-nearest-even function.
-/

namespace Wgl

/-! ## Windows SDK constants and macros used by the source

The numeric values come from the Windows SDK headers (`winuser.h`,
`minwindef.h`), which the program includes through `<windows.h>`. -/

/-- Message identifier `WM_DESTROY` (`winuser.h`). -/
def WM_DESTROY : ℕ := 0x0002
/-- Message identifier `WM_SIZE` (`winuser.h`). -/
def WM_SIZE : ℕ := 0x0005
/-- Message identifier `WM_CLOSE` (`winuser.h`). -/
def WM_CLOSE : ℕ := 0x0010
/-- Message identifier `WM_QUIT` (`winuser.h`). -/
def WM_QUIT : ℕ := 0x0012
/-- Message identifier `WM_KEYDOWN` (`winuser.h`). -/
def WM_KEYDOWN : ℕ := 0x0100
/-- Message identifier `WM_CHAR` (`winuser.h`). -/
def WM_CHAR : ℕ := 0x0102
/-- Message identifier `WM_SYSCOMMAND` (`winuser.h`). -/
def WM_SYSCOMMAND : ℕ := 0x0112
/-- System command `SC_SCREENSAVE` (`winuser.h`). -/
def SC_SCREENSAVE : ℕ := 0xF140
/-- System command `SC_MONITORPOWER` (`winuser.h`). -/
def SC_MONITORPOWER : ℕ := 0xF170
/-- Virtual key code `VK_ESCAPE` (`winuser.h`). -/
def VK_ESCAPE : ℕ := 0x1B

/-- The macro `LOWORD(l)`, that is `(WORD)(((DWORD_PTR)(l)) & 0xffff)`: the
pointer-sized argument is reinterpreted as an unsigned 64-bit value and masked
to its low 16 bits. -/
def LOWORD (l : ℤ) : ℤ := (l % 2 ^ 64) % 2 ^ 16

/-- The macro `HIWORD(l)`, that is `(WORD)((((DWORD_PTR)(l)) >> 16) & 0xffff)`. -/
def HIWORD (l : ℤ) : ℤ := ((l % 2 ^ 64) / 2 ^ 16) % 2 ^ 16

/-! ## The window procedure -/

/-- The two file-scope globals `xres` and `yres`. -/
structure Globals where
  xres : ℤ
  yres : ℤ
  deriving DecidableEq, Repr

/-- Initial values of the globals: `int xres = 1600; int yres = 1080;`. -/
def Globals.initial : Globals := ⟨1600, 1080⟩

/-- The value range of the 16-bit words that `WM_SIZE` stores in the globals. -/
def Globals.InRange (g : Globals) : Prop :=
  0 ≤ g.xres ∧ g.xres ≤ 65535 ∧ 0 ≤ g.yres ∧ g.yres ≤ 65535

/-- Calls that `WndProc` makes into the platform, in program order. -/
inductive Effect where
  | PostQuitMessage (code : ℤ)
  | glViewport (x y w h : ℤ)
  | DefWindowProcA (uMsg wParam : ℕ) (lParam : ℤ)
  deriving DecidableEq, Repr

/-- Outcome of one call of `WndProc`: the globals afterwards, the platform
calls made, and the returned `LRESULT` (`none` stands for whatever
`DefWindowProcA` returned). -/
structure WndOut where
  globals : Globals
  effects : List Effect
  result : Option ℤ
  deriving DecidableEq, Repr

/-- The window procedure `WndProc(hWnd, uMsg, wParam, lParam)`. The window
handle is only passed on to `DefWindowProcA` and is left out. -/
def WndProc (g : Globals) (uMsg wParam : ℕ) (lParam : ℤ) : WndOut :=
  if uMsg = WM_SYSCOMMAND ∧ (wParam = SC_SCREENSAVE ∨ wParam = SC_MONITORPOWER) then
    ⟨g, [], some 0⟩
  else if uMsg = WM_CLOSE ∨ uMsg = WM_DESTROY
      ∨ ((uMsg = WM_CHAR ∨ uMsg = WM_KEYDOWN) ∧ wParam = VK_ESCAPE) then
    ⟨g, [Effect.PostQuitMessage 0], some 0⟩
  else if uMsg = WM_SIZE then
    let g1 : Globals := ⟨LOWORD lParam, HIWORD lParam⟩
    ⟨g1, [Effect.glViewport 0 0 g1.xres g1.yres, Effect.DefWindowProcA uMsg wParam lParam], none⟩
  else
    ⟨g, [Effect.DefWindowProcA uMsg wParam lParam], none⟩

/-- Whether a call of `WndProc` requested quit, i.e. called `PostQuitMessage`. -/
def WndOut.requestsQuit (o : WndOut) : Bool :=
  o.effects.any fun e => match e with
    | Effect.PostQuitMessage _ => true
    | _ => false

/-- One window message as `WndProc` receives it. -/
structure WMsg where
  uMsg : ℕ
  wParam : ℕ
  lParam : ℤ
  deriving DecidableEq, Repr

/-- The globals after `WndProc` has handled a sequence of messages in order. -/
def handleAll (g : Globals) (ms : List WMsg) : Globals :=
  ms.foldl (fun acc m => (WndProc acc m.uMsg m.wParam m.lParam).globals) g

/-! ## Single-precision rounding

`GLfloat` and the C type `float` are IEEE-754 binary32. A finite binary32 value
is a rational; conversion and arithmetic round the exact result to the nearest
representable value, ties to even. Magnitudes stay far below `2 ^ 128` in this
program, so overflow to infinity is not represented. -/

/-- Round a rational to the nearest integer, ties to the even neighbour. -/
def roundHalfEven (x : ℚ) : ℤ :=
  if x - ⌊x⌋ < 1 / 2 then ⌊x⌋
  else if 1 / 2 < x - ⌊x⌋ then ⌊x⌋ + 1
  else if ⌊x⌋ % 2 = 0 then ⌊x⌋ else ⌊x⌋ + 1

/-- Binary exponent of the binade of `q` in binary32: `⌊log₂ |q|⌋`, held at
`-126` in the subnormal range. -/
def f32Exp (q : ℚ) : ℤ := max (Int.log 2 |q|) (-126)

/-- Spacing of binary32 values around `q` (24-bit significand). -/
def f32Ulp (q : ℚ) : ℚ := (2 : ℚ) ^ (f32Exp q - 23)

/-- Round-to-nearest-even onto binary32. -/
def roundF32 (q : ℚ) : ℚ := (roundHalfEven (q / f32Ulp q) : ℚ) * f32Ulp q

/-! ## The frame loop of `main` -/

/-- The unsigned 64-bit difference `now - before` of two `GetTickCount64` readings. -/
def tickDiff (before now : ℕ) : ℕ := (((now : ℤ) - (before : ℤ)) % 2 ^ 64).toNat

/-- The value `iTime = (now - before) / 1000.0f`: the `ULONGLONG` difference is
converted to `float` and divided by the `float` constant `1000`. -/
def elapsedTime (before now : ℕ) : ℚ :=
  roundF32 (roundF32 (tickDiff before now : ℚ) / 1000)

/-- The conversion `static_cast<GLfloat>(n)` of an `int`. -/
def castGLfloat (n : ℤ) : ℚ := roundF32 (n : ℚ)

/-- A message as `PeekMessageA` hands it to the frame loop. `hasWindow` says
whether `msg.hwnd` names the window, so that `DispatchMessageA` calls `WndProc`;
thread messages such as the `WM_QUIT` generated for `PostQuitMessage` carry no
window. -/
structure MSG where
  message : ℕ
  wParam : ℕ
  lParam : ℤ
  hasWindow : Bool
  deriving DecidableEq, Repr

/-- One draw call (`glRects(-1, -1, 1, 1)` followed by `SwapBuffers`) together
with the uniform values in force for it. -/
structure Draw where
  iTime : ℚ
  iResolution : ℚ × ℚ × ℚ
  deriving DecidableEq, Repr

/-- State of the running program: the globals, the local `done`, whether
`PostQuitMessage` has been called and its `WM_QUIT` not yet retrieved, the
local `before`, and the draw calls issued so far. -/
structure App where
  globals : Globals
  done : Bool
  quitPending : Bool
  before : ℕ
  draws : List Draw
  deriving DecidableEq, Repr

/-- State on entry to the frame loop: `before = GetTickCount64()`,
`done = false`, nothing drawn yet. -/
def App.start (g : Globals) (before : ℕ) : App := ⟨g, false, false, before, []⟩

/-- The call `DispatchMessageA(&msg)`: a message for the window is handed to `WndProc`. -/
def dispatch (a : App) (m : MSG) : App :=
  if m.hasWindow then
    let o := WndProc a.globals m.message m.wParam m.lParam
    { a with globals := o.globals, quitPending := a.quitPending || o.requestsQuit }
  else a

/-- Body of the inner `while (PeekMessageA(...))` loop for one retrieved message:
`if (msg.message == WM_QUIT) done = true;` then translate and dispatch. -/
def pump (a : App) (m : MSG) : App :=
  dispatch { a with done := if m.message = WM_QUIT then true else a.done } m

/-- The `WM_QUIT` message that `PeekMessageA` produces once `PostQuitMessage(0)`
has been called and no posted message is left. -/
def quitMessage : MSG := ⟨WM_QUIT, 0, 0, false⟩

/-- The inner loop `while (PeekMessageA(&msg, 0, 0, 0, PM_REMOVE)) { ... }`.
The list holds the posted messages that `PeekMessageA` retrieves during this
drain, in order; when they are used up a pending quit request yields
`WM_QUIT`, after which `PeekMessageA` reports that nothing is left. -/
def drain : App → List MSG → App
  | a, m :: q => drain (pump a m) q
  | a, [] => if a.quitPending then pump { a with quitPending := false } quitMessage else a

/-- What the environment supplies to one iteration of the frame loop: the
messages retrieved by the drain and the reading `now = GetTickCount64()`. -/
structure FrameInput where
  pending : List MSG
  now : ℕ
  deriving DecidableEq, Repr

/-- The uniforms uploaded and the draw issued after the drain of an iteration. -/
def drawOf (a : App) (now : ℕ) : Draw :=
  ⟨elapsedTime a.before now, (castGLfloat a.globals.xres, castGLfloat a.globals.yres, 1)⟩

/-- Body of `while (!done) { ... }`: drain, upload `iTime` and `iResolution`,
`glRects`, `SwapBuffers` (taken to succeed). -/
def frame (a : App) (inp : FrameInput) : App :=
  let a1 := drain a inp.pending
  { a1 with draws := a1.draws ++ [drawOf a1 inp.now] }

/-- The loop `while (!done) { ... }` followed by `return 0;`, run against the
inputs of finitely many iterations. The second component is the exit status,
`none` while the loop is still running when the inputs end. -/
def mainLoop : App → List FrameInput → App × Option ℤ
  | a, [] => (a, if a.done then some 0 else none)
  | a, inp :: rest => if a.done then (a, some 0) else mainLoop (frame a inp) rest

/-! ## Start position of the window

`screenWidth` and `screenHeight` are `int`, `width` and `height` are `LONG`;
both types are 32-bit two's complement on Windows, and the subtraction and the
division are carried out in that type. -/

/-- The values of a 32-bit signed integer (`int`, `LONG`). -/
def IsInt32 (n : ℤ) : Prop := -2147483648 ≤ n ∧ n ≤ 2147483647

instance (n : ℤ) : Decidable (IsInt32 n) := by
  unfold IsInt32
  infer_instance

/-- Reduction of an exact result to 32-bit two's complement, which is what the
machine subtraction leaves when the exact result is out of range. -/
def wrapInt32 (n : ℤ) : ℤ := (n + 2147483648) % 4294967296 - 2147483648

/-- The argument `(screenWidth - width) / 2` (and likewise for the height) passed
to `CreateWindowExA`: a 32-bit subtraction followed by C division, which
truncates toward zero and cannot leave the 32-bit range when dividing by 2. -/
def centeredPos (screen size : ℤ) : ℤ := Int.tdiv (wrapInt32 (screen - size)) 2

/-! ## The fragment shader

GLSL `highp float` values are modelled as rationals. What the GLSL
implementation decides (how arithmetic results and literals are rounded, and
the values of the built-in transcendental functions) is collected in an
environment, so the functions below follow the shader text for every conforming
implementation. Division by zero, which yields an infinity in GLSL, has no
counterpart among the rationals and takes the value `rnd 0`. -/

/-- Implementation-defined part of GLSL float arithmetic. -/
structure GLSLEnv where
  /-- Rounding of an exact result or a literal to a float. -/
  rnd : ℚ → ℚ
  sqrt : ℚ → ℚ
  exp : ℚ → ℚ
  cos : ℚ → ℚ
  sin : ℚ → ℚ
  pow : ℚ → ℚ → ℚ

/-- GLSL `vec2`. -/
structure Vec2 where
  x : ℚ
  y : ℚ
  deriving DecidableEq, Repr

/-- GLSL `vec3`. -/
structure Vec3 where
  x : ℚ
  y : ℚ
  z : ℚ
  deriving DecidableEq, Repr

/-- GLSL `vec4`. -/
structure Vec4 where
  x : ℚ
  y : ℚ
  z : ℚ
  w : ℚ
  deriving DecidableEq, Repr

namespace GLSLEnv

/-- A float literal. -/
def lit (E : GLSLEnv) (c : ℚ) : ℚ := E.rnd c
/-- Float addition. -/
def add (E : GLSLEnv) (a b : ℚ) : ℚ := E.rnd (a + b)
/-- Float subtraction. -/
def sub (E : GLSLEnv) (a b : ℚ) : ℚ := E.rnd (a - b)
/-- Float multiplication. -/
def mul (E : GLSLEnv) (a b : ℚ) : ℚ := E.rnd (a * b)
/-- Float division. -/
def div (E : GLSLEnv) (a b : ℚ) : ℚ := E.rnd (a / b)
/-- The built-in `fract(x) = x - floor(x)`. -/
def fract (E : GLSLEnv) (a : ℚ) : ℚ := E.sub a (⌊a⌋ : ℚ)
/-- The built-in `length` on `vec2`. -/
def length (E : GLSLEnv) (v : Vec2) : ℚ := E.sqrt (E.add (E.mul v.x v.x) (E.mul v.y v.y))

end GLSLEnv

/-- The shader function `palette(t) = a + b*cos(6.28318*(c*t+d))`, componentwise. -/
def palette (E : GLSLEnv) (t : ℚ) : Vec3 :=
  let comp (a b c d : ℚ) : ℚ :=
    E.add (E.lit a) (E.mul (E.lit b) (E.cos (E.mul (E.lit 6.28318) (E.add (E.mul (E.lit c) t) (E.lit d)))))
  ⟨comp 0.5 0.5 1.0 0.263, comp 0.5 0.5 1.0 0.416, comp 0.5 0.5 1.0 0.557⟩

/-- First statement of `mainImage`:
`uv = (fragCoord * 2.0 - iResolution.xy) / iResolution.y`. -/
def normalizeCoord (E : GLSLEnv) (fragCoord : Vec2) (iResolution : Vec3) : Vec2 :=
  ⟨E.div (E.sub (E.mul fragCoord.x (E.lit 2.0)) iResolution.x) iResolution.y,
   E.div (E.sub (E.mul fragCoord.y (E.lit 2.0)) iResolution.y) iResolution.y⟩

/-- Variables live across the iterations of the accumulation loop, together
with the record of the values of `i` for which the body has run. -/
structure LoopState where
  uv : Vec2
  finalColor : Vec3
  visited : List ℚ
  deriving DecidableEq, Repr

/-- Body of the `for` loop of `mainImage` at loop variable `i`. -/
def loopBody (E : GLSLEnv) (iTime : ℚ) (uv0 : Vec2) (i : ℚ) (st : LoopState) : LoopState :=
  let uv : Vec2 :=
    ⟨E.sub (E.fract (E.mul st.uv.x (E.lit 1.5))) (E.lit 0.5),
     E.sub (E.fract (E.mul st.uv.y (E.lit 1.5))) (E.lit 0.5)⟩
  let d := E.mul (E.length uv) (E.exp (-(E.length uv0)))
  let col := palette E (E.add (E.add (E.length uv0) (E.mul i (E.lit 0.4))) (E.mul iTime (E.lit 0.4)))
  let d := E.div (E.sin (E.add (E.mul d (E.lit 8)) iTime)) (E.lit 8)
  let d := |d|
  let d := E.pow (E.div (E.lit 0.01) d) (E.lit 1.2)
  { uv := uv
    finalColor := ⟨E.add st.finalColor.x (E.mul col.x d),
                   E.add st.finalColor.y (E.mul col.y d),
                   E.add st.finalColor.z (E.mul col.z d)⟩
    visited := st.visited ++ [i] }

/-- The loop `for (float i = 0.0; i < 4.0; i++) { ... }` from the point where
the condition is tested with loop variable `i`, with a bound on the number of
iterations still allowed; `none` when the bound is used up. -/
def accumulate (E : GLSLEnv) (iTime : ℚ) (uv0 : Vec2) : ℕ → ℚ → LoopState → Option LoopState
  | fuel, i, st =>
    if i < E.lit 4.0 then
      match fuel with
      | 0 => none
      | n + 1 => accumulate E iTime uv0 n (E.add i (E.lit 1)) (loopBody E iTime uv0 i st)
    else some st

/-- The shader function `mainImage(out fragColor, in fragCoord)` with the
uniforms `iTime` and `iResolution` as arguments. Returns `fragColor` and the
values of `i` for which the loop body ran. -/
def mainImage (E : GLSLEnv) (fuel : ℕ) (fragCoord : Vec2) (iTime : ℚ) (iResolution : Vec3) :
    Option (Vec4 × List ℚ) :=
  let uv := normalizeCoord E fragCoord iResolution
  let uv0 := uv
  let finalColor : Vec3 := ⟨E.lit 0.0, E.lit 0.0, E.lit 0.0⟩
  match accumulate E iTime uv0 fuel (E.lit 0.0) ⟨uv, finalColor, []⟩ with
  | none => none
  | some st => some (⟨st.finalColor.x, st.finalColor.y, st.finalColor.z, E.lit 1.0⟩, st.visited)

/-- A binary32 environment: results are rounded with `roundF32`; the
transcendental built-ins are coarse rational stand-ins (integer square root,
short Taylor polynomials), enough to run the shader on concrete inputs. -/
def sampleEnv : GLSLEnv where
  rnd := roundF32
  sqrt := fun a => roundF32 ((Nat.sqrt (⌊a * 2 ^ 24⌋.toNat) : ℚ) / 2 ^ 12)
  exp := fun a => roundF32 (1 + a + a ^ 2 / 2 + a ^ 3 / 6)
  cos := fun a => roundF32 (1 - a ^ 2 / 2 + a ^ 4 / 24)
  sin := fun a => roundF32 (a - a ^ 3 / 6 + a ^ 5 / 120)
  pow := fun a b => roundF32 (1 + b * (a - 1))

/-! ## The window procedure: quit requests and the cached viewport size -/

theorem LOWORD_range (l : ℤ) : 0 ≤ LOWORD l ∧ LOWORD l ≤ 65535 := by
  unfold LOWORD
  omega

theorem HIWORD_range (l : ℤ) : 0 ≤ HIWORD l ∧ HIWORD l ≤ 65535 := by
  unfold HIWORD
  omega

theorem WndProc_globals_of_ne (g : Globals) (uMsg wParam : ℕ) (lParam : ℤ)
    (h : uMsg ≠ WM_SIZE) : (WndProc g uMsg wParam lParam).globals = g := by
  unfold WndProc
  split_ifs <;> rfl

theorem WndProc_globals_of_size (g : Globals) (wParam : ℕ) (lParam : ℤ) :
    (WndProc g WM_SIZE wParam lParam).globals = ⟨LOWORD lParam, HIWORD lParam⟩ := by
  simp [WndProc, WM_SIZE, WM_SYSCOMMAND, WM_CLOSE, WM_DESTROY, WM_CHAR, WM_KEYDOWN]

theorem WndProc_inRange (g : Globals) (uMsg wParam : ℕ) (lParam : ℤ) (hg : g.InRange) :
    (WndProc g uMsg wParam lParam).globals.InRange := by
  by_cases h : uMsg = WM_SIZE
  · subst h
    rw [WndProc_globals_of_size]
    exact ⟨(LOWORD_range lParam).1, (LOWORD_range lParam).2, (HIWORD_range lParam).1,
      (HIWORD_range lParam).2⟩
  · rw [WndProc_globals_of_ne g uMsg wParam lParam h]
    exact hg

theorem handleAll_inRange (ms : List WMsg) (g : Globals) (hg : g.InRange) :
    (handleAll g ms).InRange := by
  induction ms generalizing g with
  | nil => exact hg
  | cons m ms ih =>
    simp only [handleAll, List.foldl_cons]
    exact ih _ (WndProc_inRange g m.uMsg m.wParam m.lParam hg)

/-- C10: starting from `(xres, yres) = (1600, 1080)`, after `WndProc` has
handled any finite sequence of messages both globals lie in `0..65535`, and a
message other than `WM_SIZE` leaves them unchanged. -/
theorem viewport_range_invariant :
    (∀ ms : List WMsg,
      0 ≤ (handleAll Globals.initial ms).xres ∧ (handleAll Globals.initial ms).xres ≤ 65535
      ∧ 0 ≤ (handleAll Globals.initial ms).yres ∧ (handleAll Globals.initial ms).yres ≤ 65535)
    ∧ (∀ (g : Globals) (uMsg wParam : ℕ) (lParam : ℤ),
        uMsg ≠ WM_SIZE → (WndProc g uMsg wParam lParam).globals = g) := by
  refine ⟨fun ms => ?_, WndProc_globals_of_ne⟩
  exact handleAll_inRange ms Globals.initial (by simp [Globals.InRange, Globals.initial])

/-- Witness for C10: a key message leaves the globals alone, and a resize whose
`lParam` is `-1` stores `65535` twice, within the range. -/
theorem viewport_range_invariant_witness :
    WM_KEYDOWN ≠ WM_SIZE
    ∧ (WndProc Globals.initial WM_KEYDOWN 65 0).globals = Globals.initial
    ∧ (0 ≤ (handleAll Globals.initial [⟨WM_SIZE, 0, -1⟩]).xres
      ∧ (handleAll Globals.initial [⟨WM_SIZE, 0, -1⟩]).xres ≤ 65535
      ∧ 0 ≤ (handleAll Globals.initial [⟨WM_SIZE, 0, -1⟩]).yres
      ∧ (handleAll Globals.initial [⟨WM_SIZE, 0, -1⟩]).yres ≤ 65535) :=
  ⟨by decide, viewport_range_invariant.2 Globals.initial WM_KEYDOWN 65 0 (by decide),
    viewport_range_invariant.1 [⟨WM_SIZE, 0, -1⟩]⟩

/-! ## Start position -/

theorem tdiv_two_bounds (d : ℤ) : d - 1 ≤ 2 * d.tdiv 2 ∧ 2 * d.tdiv 2 ≤ d + 1 := by
  rcases d with n | n
  · have h : Int.tdiv (Int.ofNat n) 2 = ((n / 2 : ℕ) : ℤ) := rfl
    rw [h]
    simp only [Int.ofNat_eq_coe]
    omega
  · have h : Int.tdiv (Int.negSucc n) 2 = -(((n + 1) / 2 : ℕ) : ℤ) := rfl
    rw [h]
    simp only [Int.negSucc_eq]
    omega

theorem wrapInt32_of_isInt32 (n : ℤ) (h : IsInt32 n) : wrapInt32 n = n := by
  obtain ⟨h1, h2⟩ := h
  unfold wrapInt32
  omega

theorem centeredPos_margin_of_isInt32 (screen size : ℤ) (h : IsInt32 (screen - size)) :
    |centeredPos screen size - (screen - (centeredPos screen size + size))| ≤ 1 := by
  have hb := tdiv_two_bounds (screen - size)
  unfold centeredPos
  rw [wrapInt32_of_isInt32 _ h, abs_le]
  constructor <;> omega

theorem dispatch_done (a : App) (m : MSG) : (dispatch a m).done = a.done := by
  unfold dispatch
  split_ifs <;> rfl

theorem dispatch_draws (a : App) (m : MSG) : (dispatch a m).draws = a.draws := by
  unfold dispatch
  split_ifs <;> rfl

theorem dispatch_before (a : App) (m : MSG) : (dispatch a m).before = a.before := by
  unfold dispatch
  split_ifs <;> rfl

theorem pump_done_of_done (a : App) (m : MSG) (h : a.done = true) : (pump a m).done = true := by
  unfold pump
  rw [dispatch_done]
  simp [h]

theorem pump_done_of_quit (a : App) (m : MSG) (h : m.message = WM_QUIT) :
    (pump a m).done = true := by
  unfold pump
  rw [dispatch_done]
  simp [h]

theorem pump_draws (a : App) (m : MSG) : (pump a m).draws = a.draws := by
  unfold pump
  rw [dispatch_draws]

theorem pump_before (a : App) (m : MSG) : (pump a m).before = a.before := by
  unfold pump
  rw [dispatch_before]

theorem drain_done_of_done (q : List MSG) (a : App) (h : a.done = true) :
    (drain a q).done = true := by
  induction q generalizing a with
  | nil =>
    unfold drain
    split_ifs
    · exact pump_done_of_quit _ _ rfl
    · exact h
  | cons m q ih =>
    unfold drain
    exact ih _ (pump_done_of_done a m h)

theorem drain_draws (q : List MSG) (a : App) : (drain a q).draws = a.draws := by
  induction q generalizing a with
  | nil =>
    unfold drain
    split_ifs
    · rw [pump_draws]
    · rfl
  | cons m q ih =>
    unfold drain
    rw [ih, pump_draws]

theorem drain_before (q : List MSG) (a : App) : (drain a q).before = a.before := by
  induction q generalizing a with
  | nil =>
    unfold drain
    split_ifs
    · rw [pump_before]
    · rfl
  | cons m q ih =>
    unfold drain
    rw [ih, pump_before]

/-- C8: the frame loop starts with `done = false`, and once `done` is true no
message pumped afterwards, of any kind and in any order, nor any later drain or
loop iteration, makes it false again. -/
theorem done_irreversible :
    (∀ (g : Globals) (before : ℕ), (App.start g before).done = false)
    ∧ (∀ (a : App) (m : MSG), a.done = true → (pump a m).done = true)
    ∧ (∀ (a : App) (q : List MSG), a.done = true → (drain a q).done = true)
    ∧ (∀ (a : App) (inp : FrameInput), a.done = true → (frame a inp).done = true) := by
  refine ⟨fun _ _ => rfl, pump_done_of_done, fun a q h => drain_done_of_done q a h, ?_⟩
  intro a inp h
  exact drain_done_of_done inp.pending a h

/-! ## Properties of single-precision rounding -/

theorem roundHalfEven_intCast (k : ℤ) : roundHalfEven (k : ℚ) = k := by
  simp [roundHalfEven]

theorem floor_le_roundHalfEven (x : ℚ) : ⌊x⌋ ≤ roundHalfEven x := by
  unfold roundHalfEven
  split_ifs <;> omega

theorem roundHalfEven_le_floor_add_one (x : ℚ) : roundHalfEven x ≤ ⌊x⌋ + 1 := by
  unfold roundHalfEven
  split_ifs <;> omega

theorem roundHalfEven_mono {x y : ℚ} (h : x ≤ y) : roundHalfEven x ≤ roundHalfEven y := by
  rcases (Int.floor_mono h).lt_or_eq with hlt | heq
  · calc roundHalfEven x ≤ ⌊x⌋ + 1 := roundHalfEven_le_floor_add_one x
      _ ≤ ⌊y⌋ := hlt
      _ ≤ roundHalfEven y := floor_le_roundHalfEven y
  · unfold roundHalfEven
    rw [heq]
    split_ifs <;> first | omega | (exfalso; linarith)

theorem f32Ulp_pos (q : ℚ) : 0 < f32Ulp q := zpow_pos (by norm_num) _

theorem lt_two_zpow_f32Exp_succ (q : ℚ) (hq : 0 ≤ q) : q < (2 : ℚ) ^ (f32Exp q + 1) := by
  have h1 : q < ((2 : ℕ) : ℚ) ^ (Int.log 2 q + 1) := Int.lt_zpow_succ_log_self (by norm_num) q
  have h2 : ((2 : ℕ) : ℚ) ^ (Int.log 2 q + 1) ≤ (2 : ℚ) ^ (f32Exp q + 1) := by
    rw [Nat.cast_ofNat]
    apply zpow_le_zpow_right₀ (by norm_num)
    unfold f32Exp
    rw [abs_of_nonneg hq]
    have := le_max_left (Int.log 2 q) (-126)
    omega
  exact lt_of_lt_of_le h1 h2

theorem two_zpow_f32Exp_le (q : ℚ) (hq : 0 < q) (hlog : -126 ≤ Int.log 2 q) :
    (2 : ℚ) ^ f32Exp q ≤ q := by
  have h1 : ((2 : ℕ) : ℚ) ^ Int.log 2 q ≤ q := Int.zpow_log_le_self (by norm_num) hq
  have h2 : f32Exp q = Int.log 2 q := by
    unfold f32Exp
    rw [abs_of_pos hq]
    exact max_eq_left hlog
  rw [h2]
  rwa [Nat.cast_ofNat] at h1

theorem roundF32_zero : roundF32 0 = 0 := by
  simp [roundF32, roundHalfEven]

theorem roundF32_nonneg (q : ℚ) (hq : 0 ≤ q) : 0 ≤ roundF32 q := by
  unfold roundF32
  apply mul_nonneg _ (f32Ulp_pos q).le
  have h : roundHalfEven ((0 : ℤ) : ℚ) ≤ roundHalfEven (q / f32Ulp q) :=
    roundHalfEven_mono (by
      rw [Int.cast_zero]
      exact div_nonneg hq (f32Ulp_pos q).le)
  rw [roundHalfEven_intCast] at h
  exact_mod_cast h

theorem roundF32_le_two_zpow (q : ℚ) (hq : 0 ≤ q) : roundF32 q ≤ (2 : ℚ) ^ (f32Exp q + 1) := by
  have hlt := lt_two_zpow_f32Exp_succ q hq
  have hu := f32Ulp_pos q
  have hm : q / f32Ulp q ≤ (((2 : ℤ) ^ 24 : ℤ) : ℚ) := by
    rw [div_le_iff₀ hu]
    have : (((2 : ℤ) ^ 24 : ℤ) : ℚ) * f32Ulp q = (2 : ℚ) ^ (f32Exp q + 1) := by
      unfold f32Ulp
      rw [show f32Exp q + 1 = 24 + (f32Exp q - 23) by ring, zpow_add₀ (by norm_num)]
      norm_num
    rw [this]
    exact hlt.le
  have hr := roundHalfEven_mono hm
  rw [roundHalfEven_intCast] at hr
  have hr2 : (roundHalfEven (q / f32Ulp q) : ℚ) ≤ (2 : ℚ) ^ (24 : ℤ) := by
    have : ((roundHalfEven (q / f32Ulp q) : ℤ) : ℚ) ≤ (((2 : ℤ) ^ 24 : ℤ) : ℚ) := by
      exact_mod_cast hr
    norm_num at this ⊢
    exact this
  unfold roundF32
  calc (roundHalfEven (q / f32Ulp q) : ℚ) * f32Ulp q ≤ (2 : ℚ) ^ (24 : ℤ) * f32Ulp q :=
        mul_le_mul_of_nonneg_right hr2 hu.le
    _ = (2 : ℚ) ^ (f32Exp q + 1) := by
        unfold f32Ulp
        rw [← zpow_add₀ (by norm_num)]
        congr 1
        ring

theorem two_zpow_le_roundF32 (q : ℚ) (hq : 0 < q) (hlog : -126 ≤ Int.log 2 q) :
    (2 : ℚ) ^ f32Exp q ≤ roundF32 q := by
  have hle := two_zpow_f32Exp_le q hq hlog
  have hu := f32Ulp_pos q
  have hm : (((2 : ℤ) ^ 23 : ℤ) : ℚ) ≤ q / f32Ulp q := by
    rw [le_div_iff₀ hu]
    have : (((2 : ℤ) ^ 23 : ℤ) : ℚ) * f32Ulp q = (2 : ℚ) ^ f32Exp q := by
      unfold f32Ulp
      rw [show f32Exp q = 23 + (f32Exp q - 23) by ring, zpow_add₀ (by norm_num)]
      norm_num
    rw [this]
    exact hle
  have hr := roundHalfEven_mono hm
  rw [roundHalfEven_intCast] at hr
  have hr2 : (2 : ℚ) ^ (23 : ℤ) ≤ (roundHalfEven (q / f32Ulp q) : ℚ) := by
    have : (((2 : ℤ) ^ 23 : ℤ) : ℚ) ≤ ((roundHalfEven (q / f32Ulp q) : ℤ) : ℚ) := by
      exact_mod_cast hr
    norm_num at this ⊢
    exact this
  unfold roundF32
  calc (2 : ℚ) ^ f32Exp q = (2 : ℚ) ^ (23 : ℤ) * f32Ulp q := by
        unfold f32Ulp
        rw [← zpow_add₀ (by norm_num)]
        congr 1
        ring
    _ ≤ (roundHalfEven (q / f32Ulp q) : ℚ) * f32Ulp q := mul_le_mul_of_nonneg_right hr2 hu.le

theorem f32Exp_mono {a b : ℚ} (ha : 0 < a) (hab : a ≤ b) : f32Exp a ≤ f32Exp b := by
  unfold f32Exp
  rw [abs_of_pos ha, abs_of_pos (lt_of_lt_of_le ha hab)]
  exact max_le_max (Int.log_mono_right ha hab) le_rfl

theorem roundF32_mono {a b : ℚ} (ha : 0 ≤ a) (hab : a ≤ b) : roundF32 a ≤ roundF32 b := by
  rcases ha.lt_or_eq with hpos | hzero
  · have hb : 0 < b := lt_of_lt_of_le hpos hab
    rcases (f32Exp_mono hpos hab).lt_or_eq with hlt | heq
    · have hlogb : -126 ≤ Int.log 2 b := by
        by_contra hcon
        have : f32Exp b = -126 := by
          unfold f32Exp
          rw [abs_of_pos hb]
          exact max_eq_right (by omega)
        have h2 : -126 ≤ f32Exp a := le_max_right _ _
        omega
      calc roundF32 a ≤ (2 : ℚ) ^ (f32Exp a + 1) := roundF32_le_two_zpow a ha
        _ ≤ (2 : ℚ) ^ f32Exp b := zpow_le_zpow_right₀ (by norm_num) hlt
        _ ≤ roundF32 b := two_zpow_le_roundF32 b hb hlogb
    · have hu : f32Ulp a = f32Ulp b := by
        unfold f32Ulp
        rw [heq]
      unfold roundF32
      rw [hu]
      apply mul_le_mul_of_nonneg_right _ (f32Ulp_pos b).le
      have := roundHalfEven_mono (div_le_div_of_nonneg_right hab (f32Ulp_pos b).le)
      exact_mod_cast this
  · rw [← hzero, roundF32_zero]
    exact roundF32_nonneg b (hzero ▸ hab)
theorem roundF32_natCast (n : ℕ) (hn : n < 2 ^ 24) : roundF32 (n : ℚ) = n := by
  rcases Nat.eq_zero_or_pos n with h0 | hpos
  · subst h0
    simpa using roundF32_zero
  · have hlog : Int.log 2 |(n : ℚ)| = (Nat.log 2 n : ℤ) := by
      rw [abs_of_nonneg (Nat.cast_nonneg n)]
      exact Int.log_natCast 2 n
    have he : Nat.log 2 n < 24 := Nat.log_lt_of_lt_pow hpos.ne' hn
    obtain ⟨k, hk⟩ : ∃ k : ℕ, Nat.log 2 n + k = 23 := ⟨23 - Nat.log 2 n, by omega⟩
    have hulp : f32Ulp (n : ℚ) = ((2 : ℚ) ^ k)⁻¹ := by
      unfold f32Ulp f32Exp
      rw [hlog, max_eq_left (by omega), show ((Nat.log 2 n : ℕ) : ℤ) - 23 = -(k : ℤ) by omega,
        zpow_neg, zpow_natCast]
    have hm : (n : ℚ) / f32Ulp (n : ℚ) = (((n * 2 ^ k : ℕ) : ℤ) : ℚ) := by
      rw [hulp]
      push_cast
      rw [div_inv_eq_mul]
    unfold roundF32
    rw [hm, roundHalfEven_intCast, hulp]
    push_cast
    field_simp

theorem tickDiff_of_le (before now : ℕ) (h1 : before ≤ now) (h2 : now < 2 ^ 64) :
    tickDiff before now = now - before := by
  unfold tickDiff
  omega

theorem elapsedTime_nonneg (before now : ℕ) : 0 ≤ elapsedTime before now := by
  unfold elapsedTime
  apply roundF32_nonneg
  exact div_nonneg (roundF32_nonneg _ (Nat.cast_nonneg _)) (by norm_num)

theorem elapsedTime_mono_of_tickDiff_le (before now1 now2 : ℕ)
    (h : tickDiff before now1 ≤ tickDiff before now2) :
    elapsedTime before now1 ≤ elapsedTime before now2 := by
  unfold elapsedTime
  apply roundF32_mono
  · exact div_nonneg (roundF32_nonneg _ (Nat.cast_nonneg _)) (by norm_num)
  · apply div_le_div_of_nonneg_right _ (by norm_num)
    exact roundF32_mono (Nat.cast_nonneg _) (by exact_mod_cast h)

theorem roundF32_pos (q : ℚ) (hq : (2 : ℚ) ^ (-126 : ℤ) ≤ q) : 0 < roundF32 q := by
  have hpos : 0 < q := lt_of_lt_of_le (zpow_pos (by norm_num) _) hq
  have hlog : -126 ≤ Int.log 2 q := by
    rw [← Int.zpow_le_iff_le_log (by norm_num) hpos, Nat.cast_ofNat]
    exact hq
  exact lt_of_lt_of_le (zpow_pos (by norm_num) _) (two_zpow_le_roundF32 q hpos hlog)

theorem elapsedTime_eq_zero_iff (before now : ℕ) :
    elapsedTime before now = 0 ↔ tickDiff before now = 0 := by
  constructor
  · intro h
    by_contra hne
    have h1 : 1 ≤ tickDiff before now := Nat.one_le_iff_ne_zero.mpr hne
    have h2 : (1 : ℚ) ≤ roundF32 (tickDiff before now : ℚ) := by
      have := roundF32_mono (a := ((1 : ℕ) : ℚ)) (b := (tickDiff before now : ℚ))
        (by norm_num) (by exact_mod_cast h1)
      rwa [roundF32_natCast 1 (by norm_num), Nat.cast_one] at this
    have h3 : (2 : ℚ) ^ (-126 : ℤ) ≤ roundF32 (tickDiff before now : ℚ) / 1000 := by
      rw [le_div_iff₀ (by norm_num)]
      calc (2 : ℚ) ^ (-126 : ℤ) * 1000 ≤ 1 := by
            rw [zpow_neg]
            norm_num
        _ ≤ _ := h2
    have := roundF32_pos _ h3
    unfold elapsedTime at h
    linarith
  · intro h
    unfold elapsedTime
    rw [h]
    simp [roundF32_zero]

/-! ## The frame loop -/

theorem frame_draws (a : App) (inp : FrameInput) :
    (frame a inp).draws = a.draws ++ [drawOf (drain a inp.pending) inp.now] := by
  simp [frame, drain_draws]

theorem frame_before (a : App) (inp : FrameInput) : (frame a inp).before = a.before := by
  simp [frame, drain_before]

theorem drawOf_iTime (a : App) (now : ℕ) : (drawOf a now).iTime = elapsedTime a.before now := rfl

/-- C4: over two consecutive iterations of the frame loop whose clock readings
satisfy `before ≤ now1 ≤ now2` (readings are 64-bit), the `iTime` values
uploaded for the two draws satisfy `0 ≤ iTime1 ≤ iTime2`, each being
`(now - before) / 1000.0f` in single precision. -/
theorem iTime_nondecreasing (a : App) (inp1 inp2 : FrameInput)
    (h0 : a.before ≤ inp1.now) (h1 : inp1.now ≤ inp2.now) (h2 : inp2.now < 2 ^ 64) :
    ∃ d1 d2 : Draw, (frame (frame a inp1) inp2).draws = a.draws ++ [d1, d2]
      ∧ d1.iTime = elapsedTime a.before inp1.now
      ∧ d2.iTime = elapsedTime a.before inp2.now
      ∧ 0 ≤ d1.iTime ∧ d1.iTime ≤ d2.iTime := by
  refine ⟨drawOf (drain a inp1.pending) inp1.now,
    drawOf (drain (frame a inp1) inp2.pending) inp2.now, ?_, ?_, ?_, ?_, ?_⟩
  · rw [frame_draws, frame_draws]
    simp
  · rw [drawOf_iTime, drain_before]
  · rw [drawOf_iTime, drain_before, frame_before]
  · rw [drawOf_iTime]
    exact elapsedTime_nonneg _ _
  · rw [drawOf_iTime, drawOf_iTime, drain_before, drain_before, frame_before]
    apply elapsedTime_mono_of_tickDiff_le
    rw [tickDiff_of_le _ _ h0 (by omega), tickDiff_of_le _ _ (by omega) h2]
    omega

/-- Witness for C4: start reading 5000, then frames at readings 5016 and 6000. -/
theorem iTime_nondecreasing_witness :
    ∃ d1 d2 : Draw,
      (frame (frame (App.start Globals.initial 5000) ⟨[], 5016⟩) ⟨[], 6000⟩).draws
        = (App.start Globals.initial 5000).draws ++ [d1, d2]
      ∧ d1.iTime = elapsedTime (App.start Globals.initial 5000).before 5016
      ∧ d2.iTime = elapsedTime (App.start Globals.initial 5000).before 6000
      ∧ 0 ≤ d1.iTime ∧ d1.iTime ≤ d2.iTime :=
  iTime_nondecreasing (App.start Globals.initial 5000) ⟨[], 5016⟩ ⟨[], 6000⟩
    (by decide) (by decide) (by norm_num)

theorem first_frame_iTime (g : Globals) (before : ℕ) (inp : FrameInput) :
    (frame (App.start g before) inp).draws.map Draw.iTime = [elapsedTime before inp.now] := by
  rw [frame_draws]
  simp [App.start, drawOf_iTime, drain_before]

/-- C5, as stated, fails: when the clock advances between the startup reading
and the first per-frame reading (here from 5000 to 5016), the first uploaded
`iTime` is not `0.0`. -/
theorem first_iTime_not_always_zero :
    (frame (App.start Globals.initial 5000) ⟨[], 5016⟩).draws.map Draw.iTime ≠ [0] := by
  rw [first_frame_iTime]
  intro h
  have h0 : elapsedTime 5000 5016 = 0 := by simpa using h
  rw [elapsedTime_eq_zero_iff, tickDiff_of_le _ _ (by norm_num) (by norm_num)] at h0
  omega

/-- C5, amended: the first iteration of the frame loop uploads
`iTime = (now - before) / 1000.0f`, which is never negative and is `0.0` exactly
when the first per-frame clock reading equals the startup reading. -/
theorem first_iTime_zero_iff (g : Globals) (before : ℕ) (inp : FrameInput)
    (h1 : before ≤ inp.now) (h2 : inp.now < 2 ^ 64) :
    ∃ d : Draw, (frame (App.start g before) inp).draws = [d]
      ∧ d.iTime = elapsedTime before inp.now
      ∧ 0 ≤ d.iTime ∧ (d.iTime = 0 ↔ inp.now = before) := by
  refine ⟨drawOf (drain (App.start g before) inp.pending) inp.now, ?_, ?_, ?_, ?_⟩
  · rw [frame_draws]
    simp [App.start]
  · rw [drawOf_iTime, drain_before]
    rfl
  · rw [drawOf_iTime]
    exact elapsedTime_nonneg _ _
  · rw [drawOf_iTime, drain_before, elapsedTime_eq_zero_iff]
    show tickDiff before inp.now = 0 ↔ inp.now = before
    rw [tickDiff_of_le _ _ h1 h2]
    omega

/-- Witness for C5 (amended): startup reading 5000 and first frame at 5000. -/
theorem first_iTime_zero_iff_witness :
    ∃ d : Draw, (frame (App.start Globals.initial 5000) ⟨[], 5000⟩).draws = [d]
      ∧ d.iTime = elapsedTime 5000 (FrameInput.mk [] 5000).now
      ∧ 0 ≤ d.iTime ∧ (d.iTime = 0 ↔ (FrameInput.mk [] 5000).now = 5000) :=
  first_iTime_zero_iff Globals.initial 5000 ⟨[], 5000⟩ (by decide) (by norm_num)

/-! ## Resize and the resolution uniform -/

theorem castGLfloat_of_range (n : ℤ) (h0 : 0 ≤ n) (h1 : n ≤ 65535) : castGLfloat n = n := by
  obtain ⟨k, rfl⟩ := Int.eq_ofNat_of_zero_le h0
  unfold castGLfloat
  rw [Int.cast_natCast]
  exact roundF32_natCast k (by omega)

theorem dispatch_globals_of_ne (a : App) (m : MSG)
    (h : m.hasWindow = true → m.message ≠ WM_SIZE) : (dispatch a m).globals = a.globals := by
  unfold dispatch
  split_ifs with hw
  · exact WndProc_globals_of_ne _ _ _ _ (h hw)
  · rfl

theorem pump_globals_of_ne (a : App) (m : MSG)
    (h : m.hasWindow = true → m.message ≠ WM_SIZE) : (pump a m).globals = a.globals := by
  unfold pump
  rw [dispatch_globals_of_ne _ _ h]

theorem drain_globals_of_ne (q : List MSG) (a : App)
    (h : ∀ m ∈ q, m.hasWindow = true → m.message ≠ WM_SIZE) :
    (drain a q).globals = a.globals := by
  induction q generalizing a with
  | nil =>
    unfold drain
    split_ifs
    · rw [pump_globals_of_ne _ _ (by simp [quitMessage])]
    · rfl
  | cons m q ih =>
    unfold drain
    rw [ih _ (fun m1 hm1 => h m1 (List.mem_cons_of_mem _ hm1)),
      pump_globals_of_ne _ _ (h m (List.mem_cons_self _ _))]

theorem pump_size_globals (a : App) (wParam : ℕ) (lParam : ℤ) :
    (pump a ⟨WM_SIZE, wParam, lParam, true⟩).globals = ⟨LOWORD lParam, HIWORD lParam⟩ := by
  simp [pump, dispatch, WndProc_globals_of_size]

/-- C2: for `w > 0` and `h > 0`, handling a `WM_SIZE` whose `lParam` has low
word `w` and high word `h` sets `(xres, yres)` to `(w, h)`, and the next frame
uploads `iResolution = (w, h, 1.0)` provided its drain handles no further
`WM_SIZE`. -/
theorem resize_sets_resolution (w h : ℤ) (wParam : ℕ) (lParam : ℤ)
    (_hw : 0 < w) (_hh : 0 < h) (hlo : LOWORD lParam = w) (hhi : HIWORD lParam = h) :
    (∀ g : Globals, (WndProc g WM_SIZE wParam lParam).globals = ⟨w, h⟩)
    ∧ ∀ (a : App) (q : List MSG) (now : ℕ),
        (∀ m ∈ q, m.hasWindow = true → m.message ≠ WM_SIZE) →
        (pump a ⟨WM_SIZE, wParam, lParam, true⟩).globals = ⟨w, h⟩
        ∧ ∃ d : Draw,
            (frame (pump a ⟨WM_SIZE, wParam, lParam, true⟩) ⟨q, now⟩).draws = a.draws ++ [d]
            ∧ d.iResolution = ((w : ℚ), (h : ℚ), 1) := by
  have hwr := LOWORD_range lParam
  have hhr := HIWORD_range lParam
  rw [hlo] at hwr
  rw [hhi] at hhr
  refine ⟨fun g => ?_, fun a q now hq => ⟨?_, ?_⟩⟩
  · rw [WndProc_globals_of_size, hlo, hhi]
  · rw [pump_size_globals, hlo, hhi]
  · refine ⟨drawOf (drain (pump a ⟨WM_SIZE, wParam, lParam, true⟩) q) now, ?_, ?_⟩
    · rw [frame_draws, pump_draws]
    · unfold drawOf
      rw [drain_globals_of_ne q _ hq, pump_size_globals, hlo, hhi]
      simp only
      rw [castGLfloat_of_range w hwr.1 hwr.2, castGLfloat_of_range h hhr.1 hhr.2]

/-- Witness for C2: a resize to 800 by 600 (`lParam = 600 * 65536 + 800`),
followed by a frame whose drain sees a key message. -/
theorem resize_sets_resolution_witness :
    (0 : ℤ) < 800 ∧ (0 : ℤ) < 600 ∧ LOWORD 39322400 = 800 ∧ HIWORD 39322400 = 600
    ∧ (∀ m ∈ [(⟨WM_KEYDOWN, 65, 0, true⟩ : MSG)], m.hasWindow = true → m.message ≠ WM_SIZE)
    ∧ (pump (App.start Globals.initial 0) ⟨WM_SIZE, 0, 39322400, true⟩).globals = ⟨800, 600⟩
    ∧ ∃ d : Draw,
        (frame (pump (App.start Globals.initial 0) ⟨WM_SIZE, 0, 39322400, true⟩)
          ⟨[⟨WM_KEYDOWN, 65, 0, true⟩], 16⟩).draws = (App.start Globals.initial 0).draws ++ [d]
        ∧ d.iResolution = (((800 : ℤ) : ℚ), ((600 : ℤ) : ℚ), 1) :=
  have hq : ∀ m ∈ [(⟨WM_KEYDOWN, 65, 0, true⟩ : MSG)], m.hasWindow = true → m.message ≠ WM_SIZE := by
    decide
  ⟨by decide, by decide, by decide, by decide, hq,
    (resize_sets_resolution 800 600 0 39322400 (by decide) (by decide) (by decide)
      (by decide)).2 (App.start Globals.initial 0) [⟨WM_KEYDOWN, 65, 0, true⟩] 16 hq⟩

/-- Witness for C8: with `done` already true, a drain that sees a resize, a key
press, a suppressed system command and a close request leaves `done` true. -/
theorem done_irreversible_witness :
    (App.mk Globals.initial true false 0 []).done = true
    ∧ (drain (App.mk Globals.initial true false 0 [])
        [⟨WM_SIZE, 0, 39322400, true⟩, ⟨WM_KEYDOWN, 65, 0, true⟩,
          ⟨WM_SYSCOMMAND, SC_SCREENSAVE, 0, true⟩, ⟨WM_CLOSE, 0, 0, true⟩]).done = true :=
  ⟨rfl, done_irreversible.2.2.1 (App.mk Globals.initial true false 0 []) _ rfl⟩

/-! ## Close requests and the end of the frame loop -/

theorem WndProc_requestsQuit_of_close (g : Globals) (wParam : ℕ) (lParam : ℤ) :
    (WndProc g WM_CLOSE wParam lParam).requestsQuit = true := by
  simp [WndProc, WndOut.requestsQuit, WM_CLOSE, WM_SYSCOMMAND]

theorem dispatch_quitPending_of_quitPending (a : App) (m : MSG) (h : a.quitPending = true) :
    (dispatch a m).quitPending = true := by
  unfold dispatch
  split_ifs
  · simp [h]
  · exact h

theorem pump_quitPending_of_quitPending (a : App) (m : MSG) (h : a.quitPending = true) :
    (pump a m).quitPending = true := by
  unfold pump
  exact dispatch_quitPending_of_quitPending _ m h

theorem pump_quitPending_of_close (a : App) (m : MSG) (hw : m.hasWindow = true)
    (hm : m.message = WM_CLOSE) : (pump a m).quitPending = true := by
  unfold pump dispatch
  rw [if_pos hw, hm]
  simp [WndProc_requestsQuit_of_close]

theorem drain_done_of_quitPending (q : List MSG) (a : App) (h : a.quitPending = true) :
    (drain a q).done = true := by
  induction q generalizing a with
  | nil =>
    unfold drain
    rw [if_pos h]
    exact pump_done_of_quit _ _ rfl
  | cons m q ih =>
    unfold drain
    exact ih _ (pump_quitPending_of_quitPending a m h)

theorem drain_done_of_close (q : List MSG) (a : App)
    (h : ∃ m ∈ q, m.hasWindow = true ∧ m.message = WM_CLOSE) : (drain a q).done = true := by
  induction q generalizing a with
  | nil =>
    obtain ⟨m, hm, -⟩ := h
    cases hm
  | cons m0 q ih =>
    obtain ⟨m, hm, hw, hc⟩ := h
    unfold drain
    rcases List.mem_cons.mp hm with rfl | hin
    · exact drain_done_of_quitPending q _ (pump_quitPending_of_close a m hw hc)
    · exact ih _ ⟨m, hin, hw, hc⟩

theorem mainLoop_of_done (rest : List FrameInput) (a : App) (h : a.done = true) :
    mainLoop a rest = (a, some 0) := by
  cases rest with
  | nil => simp [mainLoop, h]
  | cons inp rest => simp [mainLoop, h]

theorem mainLoop_of_close (a : App) (inp : FrameInput) (rest : List FrameInput)
    (hrun : a.done = false)
    (hclose : ∃ m ∈ inp.pending, m.hasWindow = true ∧ m.message = WM_CLOSE) :
    mainLoop a (inp :: rest) = (frame a inp, some 0) := by
  have hd : (frame a inp).done = true := drain_done_of_close inp.pending a hclose
  rw [mainLoop, if_neg (by simp [hrun]), mainLoop_of_done rest _ hd]

theorem WndProc_requestsQuit_eq (g : Globals) (uMsg wParam : ℕ) (lParam : ℤ) :
    (WndProc g uMsg wParam lParam).requestsQuit = true ↔
      (uMsg = WM_CLOSE ∨ uMsg = WM_DESTROY
        ∨ ((uMsg = WM_CHAR ∨ uMsg = WM_KEYDOWN) ∧ wParam = VK_ESCAPE)) := by
  unfold WndProc
  split_ifs with h1 h2 h3
  · obtain ⟨h, -⟩ := h1
    subst h
    simp [WndOut.requestsQuit, WM_SYSCOMMAND, WM_CLOSE, WM_DESTROY, WM_CHAR, WM_KEYDOWN]
  · simp [WndOut.requestsQuit, h2]
  · simp [WndOut.requestsQuit, h2]
  · simp [WndOut.requestsQuit, h2]

theorem pump_quitPending_of_requestsQuit (a : App) (m : MSG) (hw : m.hasWindow = true)
    (hq : (WndProc a.globals m.message m.wParam m.lParam).requestsQuit = true) :
    (pump a m).quitPending = true := by
  unfold pump dispatch
  rw [if_pos hw]
  simp [hq]

/-- C1: `WndProc` calls `PostQuitMessage` exactly for `WM_CLOSE`, for
`WM_DESTROY`, and for `WM_CHAR` or `WM_KEYDOWN` carrying `VK_ESCAPE`, whatever
the globals and the remaining parameters are; in particular it does not for the
suppressed `WM_SYSCOMMAND` requests nor for `WM_SIZE`. A drain in which
`WndProc` makes that call ends with `done = true`. -/
theorem WndProc_requestsQuit_iff :
    (∀ (g : Globals) (uMsg wParam : ℕ) (lParam : ℤ),
      (WndProc g uMsg wParam lParam).requestsQuit = true ↔
        (uMsg = WM_CLOSE ∨ uMsg = WM_DESTROY
          ∨ ((uMsg = WM_CHAR ∨ uMsg = WM_KEYDOWN) ∧ wParam = VK_ESCAPE)))
    ∧ (∀ (g : Globals) (lParam : ℤ),
        (WndProc g WM_SYSCOMMAND SC_SCREENSAVE lParam).requestsQuit = false
        ∧ (WndProc g WM_SYSCOMMAND SC_MONITORPOWER lParam).requestsQuit = false)
    ∧ (∀ (g : Globals) (wParam : ℕ) (lParam : ℤ),
        (WndProc g WM_SIZE wParam lParam).requestsQuit = false)
    ∧ (∀ (a : App) (m : MSG) (q : List MSG), m.hasWindow = true →
        (WndProc a.globals m.message m.wParam m.lParam).requestsQuit = true →
        (drain a (m :: q)).done = true) := by
  refine ⟨WndProc_requestsQuit_eq, ?_, ?_, ?_⟩
  · intro g lParam
    constructor <;> simp [WndProc, WndOut.requestsQuit]
  · intro g wParam lParam
    simp [WndProc, WndOut.requestsQuit, WM_SIZE, WM_SYSCOMMAND, WM_CLOSE, WM_DESTROY, WM_CHAR,
      WM_KEYDOWN]
  · intro a m q hw hq
    unfold drain
    exact drain_done_of_quitPending q _ (pump_quitPending_of_requestsQuit a m hw hq)

/-- Witness for C1: the Escape key-down message, followed in the same drain by
a resize, ends the drain with `done = true`. -/
theorem WndProc_requestsQuit_iff_witness :
    (MSG.mk WM_KEYDOWN VK_ESCAPE 0 true).hasWindow = true
    ∧ (WndProc Globals.initial WM_KEYDOWN VK_ESCAPE 0).requestsQuit = true
    ∧ (drain (App.start Globals.initial 0)
        [⟨WM_KEYDOWN, VK_ESCAPE, 0, true⟩, ⟨WM_SIZE, 0, 39322400, true⟩]).done = true :=
  ⟨rfl, by decide,
    WndProc_requestsQuit_iff.2.2.2 (App.start Globals.initial 0) ⟨WM_KEYDOWN, VK_ESCAPE, 0, true⟩
      [⟨WM_SIZE, 0, 39322400, true⟩] rfl (by decide)⟩

/-- C3, as stated, fails: with a close request pending on entry to the first
iteration, the loop has drawn nothing before and has drawn once when it exits,
so the draw count from that drain onward is 1, not 0. -/
theorem close_still_draws_once :
    (App.start Globals.initial 0).draws.length = 0
    ∧ (mainLoop (App.start Globals.initial 0)
        [⟨[⟨WM_CLOSE, 0, 0, true⟩], 0⟩, ⟨[], 16⟩]).1.draws.length = 1 := by
  constructor
  · rfl
  · rw [mainLoop_of_close _ _ _ rfl ⟨_, List.mem_cons_self _ _, rfl, rfl⟩, frame_draws]
    simp [App.start]

/-- C3, amended: if a close request for the window is among the messages
drained by an iteration entered with `done = false`, that iteration still
issues its own draw call, the loop then exits with no further draw call
whatever is queued afterwards, and the program returns exit status 0. -/
theorem close_exits_after_one_draw (a : App) (inp : FrameInput) (rest : List FrameInput)
    (hrun : a.done = false)
    (hclose : ∃ m ∈ inp.pending, m.hasWindow = true ∧ m.message = WM_CLOSE) :
    (mainLoop a (inp :: rest)).2 = some 0
    ∧ (mainLoop a (inp :: rest)).1.done = true
    ∧ (mainLoop a (inp :: rest)).1.draws
        = a.draws ++ [drawOf (drain a inp.pending) inp.now] := by
  rw [mainLoop_of_close a inp rest hrun hclose]
  exact ⟨rfl, drain_done_of_close inp.pending a hclose, frame_draws a inp⟩

/-- Witness for C3 (amended): a close request in the first iteration, with two
more iterations offered afterwards. -/
theorem close_exits_after_one_draw_witness :
    (App.start Globals.initial 0).done = false
    ∧ (∃ m ∈ (FrameInput.mk [⟨WM_CLOSE, 0, 0, true⟩] 0).pending,
        m.hasWindow = true ∧ m.message = WM_CLOSE)
    ∧ (mainLoop (App.start Globals.initial 0)
        (⟨[⟨WM_CLOSE, 0, 0, true⟩], 0⟩ :: [⟨[], 16⟩, ⟨[], 32⟩])).2 = some 0 :=
  ⟨rfl, ⟨_, List.mem_cons_self _ _, rfl, rfl⟩,
    (close_exits_after_one_draw (App.start Globals.initial 0) ⟨[⟨WM_CLOSE, 0, 0, true⟩], 0⟩
      [⟨[], 16⟩, ⟨[], 32⟩] rfl ⟨_, List.mem_cons_self _ _, rfl, rfl⟩).1⟩

/-! ## The fragment shader -/

theorem accumulate_step (E : GLSLEnv) (iTime : ℚ) (uv0 : Vec2) (n : ℕ) (i : ℚ) (st : LoopState)
    (h : i < E.lit 4.0) :
    accumulate E iTime uv0 (n + 1) i st
      = accumulate E iTime uv0 n (E.add i (E.lit 1)) (loopBody E iTime uv0 i st) := by
  rw [accumulate, if_pos h]

theorem accumulate_exit (E : GLSLEnv) (iTime : ℚ) (uv0 : Vec2) (n : ℕ) (i : ℚ) (st : LoopState)
    (h : ¬ i < E.lit 4.0) : accumulate E iTime uv0 n i st = some st := by
  unfold accumulate
  rw [if_neg h]

theorem sampleEnv_rnd_natCast (n : ℕ) (hn : n < 2 ^ 24) : sampleEnv.rnd n = n :=
  roundF32_natCast n hn

/-- C6: whatever the fragment coordinate, elapsed time and resolution, and for
every float implementation that represents the integers 0 to 4 exactly, the
accumulation loop of `mainImage` runs its body exactly four times, for
`i = 0, 1, 2, 3`, and the alpha component of `fragColor` is exactly `1.0`. -/
theorem mainImage_four_iterations (E : GLSLEnv) (hE : ∀ n : ℕ, n ≤ 4 → E.rnd n = n)
    (fuel : ℕ) (hfuel : 4 ≤ fuel) (fragCoord : Vec2) (iTime : ℚ) (iResolution : Vec3) :
    ∃ c : Vec4, mainImage E fuel fragCoord iTime iResolution = some (c, [0, 1, 2, 3])
      ∧ c.w = 1 := by
  obtain ⟨k, rfl⟩ : ∃ k, fuel = k + 4 := ⟨fuel - 4, by omega⟩
  have r0 : E.rnd 0 = 0 := by simpa using hE 0 (by norm_num)
  have r1 : E.rnd 1 = 1 := by simpa using hE 1 (by norm_num)
  have r2 : E.rnd 2 = 2 := by simpa using hE 2 (by norm_num)
  have r3 : E.rnd 3 = 3 := by simpa using hE 3 (by norm_num)
  have r4 : E.rnd 4 = 4 := by simpa using hE 4 (by norm_num)
  have l4 : E.lit 4.0 = 4 := by
    unfold GLSLEnv.lit
    norm_num [r4]
  have l0 : E.lit 0.0 = 0 := by
    unfold GLSLEnv.lit
    norm_num [r0]
  have l1 : E.lit 1.0 = 1 := by
    unfold GLSLEnv.lit
    norm_num [r1]
  have i1 : E.add 0 (E.lit 1) = 1 := by
    unfold GLSLEnv.add GLSLEnv.lit
    norm_num [r1]
  have i2 : E.add 1 (E.lit 1) = 2 := by
    unfold GLSLEnv.add GLSLEnv.lit
    rw [r1]
    norm_num [r2]
  have i3 : E.add 2 (E.lit 1) = 3 := by
    unfold GLSLEnv.add GLSLEnv.lit
    rw [r1]
    norm_num [r3]
  have i4 : E.add 3 (E.lit 1) = 4 := by
    unfold GLSLEnv.add GLSLEnv.lit
    rw [r1]
    norm_num [r4]
  unfold mainImage
  simp only
  rw [l0, accumulate_step E _ _ (k + 3) 0 _ (by rw [l4]; norm_num), i1,
    accumulate_step E _ _ (k + 2) 1 _ (by rw [l4]; norm_num), i2,
    accumulate_step E _ _ (k + 1) 2 _ (by rw [l4]; norm_num), i3,
    accumulate_step E _ _ k 3 _ (by rw [l4]; norm_num), i4,
    accumulate_exit E _ _ k 4 _ (by rw [l4]; norm_num)]
  exact ⟨_, rfl, l1⟩

/-- Witness for C6: the binary32 environment, five iterations allowed, the
fragment at `(800.5, 540.5)` of a 1600 by 1080 viewport at time 0. -/
theorem mainImage_four_iterations_witness :
    (∀ n : ℕ, n ≤ 4 → sampleEnv.rnd n = n) ∧ 4 ≤ 5
    ∧ ∃ c : Vec4, mainImage sampleEnv 5 ⟨800.5, 540.5⟩ 0 ⟨1600, 1080, 1⟩ = some (c, [0, 1, 2, 3])
      ∧ c.w = 1 :=
  ⟨fun n hn => sampleEnv_rnd_natCast n (by omega), by decide,
    mainImage_four_iterations sampleEnv (fun n hn => sampleEnv_rnd_natCast n (by omega)) 5
      (by decide) ⟨800.5, 540.5⟩ 0 ⟨1600, 1080, 1⟩⟩

theorem normalizeCoord_half (E : GLSLEnv) (w h z : ℚ) (h0 : E.rnd 0 = 0) (h2 : E.rnd 2 = 2)
    (hw : E.rnd w = w) (hh : E.rnd h = h) :
    normalizeCoord E ⟨w / 2, h / 2⟩ ⟨w, h, z⟩ = ⟨0, 0⟩ := by
  have l2 : E.lit 2.0 = 2 := by
    unfold GLSLEnv.lit
    norm_num [h2]
  have mw : E.mul (w / 2) 2 = w := by
    unfold GLSLEnv.mul
    rw [div_mul_cancel₀ w (by norm_num)]
    exact hw
  have mh : E.mul (h / 2) 2 = h := by
    unfold GLSLEnv.mul
    rw [div_mul_cancel₀ h (by norm_num)]
    exact hh
  unfold normalizeCoord
  simp only [l2, mw, mh]
  simp [GLSLEnv.sub, GLSLEnv.div, h0]

/-- C7: the normalisation `uv = (fragCoord * 2 - iResolution.xy) / iResolution.y`
sends the viewport centre to the origin: `(800, 540)` at resolution
`(1600, 1080)`, and `(w/2, h/2)` at any resolution `(w, h)` with `h ≠ 0`, for
every float implementation in which `0`, `2` and the resolution components are
float values. -/
theorem normalizeCoord_centre :
    (∀ E : GLSLEnv, E.rnd 0 = 0 → E.rnd 2 = 2 → E.rnd 1600 = 1600 → E.rnd 1080 = 1080 →
      normalizeCoord E ⟨800, 540⟩ ⟨1600, 1080, 1⟩ = ⟨0, 0⟩)
    ∧ (∀ (E : GLSLEnv) (w h z : ℚ), E.rnd 0 = 0 → E.rnd 2 = 2 → E.rnd w = w → E.rnd h = h →
        h ≠ 0 → normalizeCoord E ⟨w / 2, h / 2⟩ ⟨w, h, z⟩ = ⟨0, 0⟩) := by
  constructor
  · intro E h0 h2 hw hh
    have := normalizeCoord_half E 1600 1080 1 h0 h2 hw hh
    norm_num at this
    exact this
  · intro E w h z h0 h2 hw hh _
    exact normalizeCoord_half E w h z h0 h2 hw hh

/-- Witness for C7: binary32 rounding, resolution `(1600, 1080)`. -/
theorem normalizeCoord_centre_witness :
    sampleEnv.rnd 0 = 0 ∧ sampleEnv.rnd 2 = 2 ∧ sampleEnv.rnd 1600 = 1600
    ∧ sampleEnv.rnd 1080 = 1080 ∧ (1080 : ℚ) ≠ 0
    ∧ normalizeCoord sampleEnv ⟨800, 540⟩ ⟨1600, 1080, 1⟩ = ⟨0, 0⟩
    ∧ normalizeCoord sampleEnv ⟨1600 / 2, 1080 / 2⟩ ⟨1600, 1080, 1⟩ = ⟨0, 0⟩ :=
  have h0 : sampleEnv.rnd 0 = 0 := by simpa using sampleEnv_rnd_natCast 0 (by norm_num)
  have h2 : sampleEnv.rnd 2 = 2 := by simpa using sampleEnv_rnd_natCast 2 (by norm_num)
  have hw : sampleEnv.rnd 1600 = 1600 := by simpa using sampleEnv_rnd_natCast 1600 (by norm_num)
  have hh : sampleEnv.rnd 1080 = 1080 := by simpa using sampleEnv_rnd_natCast 1080 (by norm_num)
  ⟨h0, h2, hw, hh, by norm_num, normalizeCoord_centre.1 sampleEnv h0 h2 hw hh,
    normalizeCoord_centre.2 sampleEnv 1600 1080 1 h0 h2 hw hh (by norm_num)⟩

end Wgl
